import Mathlib

/-!
Verification of the threshold-distribution core of the hot-days temperature
analysis app (src/app.py), shallowly embedded in Lean.

Temperatures are modelled as exact rationals (ℚ); the source's numpy double
arithmetic is embedded as exact arithmetic. `np.arange` is embedded with its
documented exact semantics: `max(ceil((stop - start) / step), 0)` elements
`start + i * step`.
-/

namespace HotDays

/-- A daily weather sample (one row of the DataFrame built at src/app.py:118-129).
`minTemp` and `maxTemp` may be absent (NaN in the source), represented by
`Option`. The date is an abstract index. -/
structure DailySample where
  date : Nat
  minTemp : Option ℚ
  maxTemp : Option ℚ
deriving DecidableEq

/-- The Sample Cleaner, `df = df.dropna()` (src/app.py:132): keep exactly the
rows in which both temperature fields are present, in order. -/
def clean (samples : List DailySample) : List DailySample :=
  samples.filter (fun s => s.minTemp.isSome && s.maxTemp.isSome)

/-- Minimum of a value series, as in `df[col].min()`; defaults to 0 on the
empty series (the source never takes the minimum of an empty column thanks to
the guard at src/app.py:134). -/
def seriesMin : List ℚ → ℚ
  | [] => 0
  | v :: vs => vs.foldl min v

/-- Maximum of a value series, as in `df[col].max()`. -/
def seriesMax : List ℚ → ℚ
  | [] => 0
  | v :: vs => vs.foldl max v

/-- Exact-arithmetic embedding of `np.arange start stop step` for a positive
step: `max (ceil ((stop - start) / step)) 0` elements `start + i * step`. -/
def arange (start stop step : ℚ) : List ℚ :=
  (List.range (⌈(stop - start) / step⌉).toNat).map (fun i : ℕ => start + (i : ℚ) * step)

/-- The Threshold Grid Builder (src/app.py:141-143 and 183-185):
`min_temp = floor(min * 5) / 5`, `max_temp = ceil(max * 5) / 5`,
`temp_range = arange min_temp (max_temp + 0.2) 0.2`.
The source only runs this on a non-empty series (guard at src/app.py:134);
for the empty input the branch is — Modelled from the spec: the grid of the
empty value sequence is the empty sequence. -/
def temp_range (values : List ℚ) : List ℚ :=
  match values with
  | [] => []
  | _ :: _ =>
    let min_temp : ℚ := (⌊seriesMin values * 5⌋ : ℤ) / 5
    let max_temp : ℚ := (⌈seriesMax values * 5⌉ : ℤ) / 5
    arange min_temp (max_temp + 1/5) (1/5)

/-- The cold-direction counts (src/app.py:146-149): for each threshold in the
grid, in grid order, `len(df[df['temperature_2m_min'] < temp])`. -/
def cold_days_count (values grid : List ℚ) : List Nat :=
  grid.map (fun t => (values.filter (fun v => decide (v < t))).length)

/-- The hot-direction counts (src/app.py:188-191): for each threshold in the
grid, in grid order, `len(df[df['temperature_2m_max'] > temp])`. -/
def hot_days_count (values grid : List ℚ) : List Nat :=
  grid.map (fun t => (values.filter (fun v => decide (t < v))).length)

/-- The two comparison directions of the Distribution Aggregator. -/
inductive Comparator where
  | LESS_THAN
  | GREATER_THAN
deriving DecidableEq

/-- The Distribution Aggregator: the threshold grid zipped positionally with
the per-threshold counts, as in the `chart_data` frames (src/app.py:152-155
and 194-197). -/
def aggregate (values grid : List ℚ) (c : Comparator) : List (ℚ × Nat) :=
  match c with
  | .LESS_THAN => grid.zip (cold_days_count values grid)
  | .GREATER_THAN => grid.zip (hot_days_count values grid)

/-- The count the spec's aggregation algorithm assigns to one threshold:
the number of values strictly below (resp. strictly above) the threshold. -/
def specCount (c : Comparator) (values : List ℚ) (t : ℚ) : Nat :=
  match c with
  | .LESS_THAN => values.countP (fun v => decide (v < t))
  | .GREATER_THAN => values.countP (fun v => decide (t < v))

/-- The summary-statistics record (src/app.py:226-286). -/
structure SummaryStats where
  count : Nat
  minOfMin : ℚ
  maxOfMin : ℚ
  meanOfMin : ℚ
  minOfMax : ℚ
  maxOfMax : ℚ
  meanOfMax : ℚ
  range : ℚ
deriving DecidableEq

/-- The Summary Statistics stage (src/app.py:226-286), guarded by the
`len(df) == 0` check at src/app.py:134-135: on the empty cleaned series the
source reports an error instead of statistics (`none` here); otherwise it
reports length, min, max and mean of each temperature column and the range
`max(maxTemp) - min(minTemp)`. -/
def summarize (cleaned : List DailySample) : Option SummaryStats :=
  if cleaned.isEmpty then none
  else
    let mins := cleaned.filterMap (fun s => s.minTemp)
    let maxs := cleaned.filterMap (fun s => s.maxTemp)
    some ⟨cleaned.length,
      seriesMin mins, seriesMax mins, mins.sum / (mins.length : ℚ),
      seriesMin maxs, seriesMax maxs, maxs.sum / (maxs.length : ℚ),
      seriesMax maxs - seriesMin mins⟩

/-- Generic lower-bound binary search on `[lo, hi)`: the first index at which
the (downward-closed) predicate fails, found by bisection. -/
def bsearch (l : List ℚ) (p : ℚ → Bool) (lo hi : Nat) : Nat :=
  if h : lo < hi then
    if p (l.getD ((lo + hi) / 2) 0) then bsearch l p ((lo + hi) / 2 + 1) hi
    else bsearch l p lo ((lo + hi) / 2)
  else lo
termination_by hi - lo
decreasing_by
  · omega
  · omega

/-- The spec's design alternative for the Distribution Aggregator: sort a copy
of the values once, then binary-search the cut position for each threshold
(count below a threshold = lower-bound position; count above = length minus
upper-bound position). -/
def aggregateSorted (values grid : List ℚ) (c : Comparator) : List (ℚ × Nat) :=
  let sorted := List.insertionSort (· ≤ ·) values
  grid.map (fun t =>
    (t, match c with
        | .LESS_THAN => bsearch sorted (fun v => decide (v < t)) 0 sorted.length
        | .GREATER_THAN =>
            sorted.length - bsearch sorted (fun v => decide (v ≤ t)) 0 sorted.length))

/-! Helper lemmas about series minima and maxima. -/

lemma foldl_min_le_init (l : List ℚ) (a : ℚ) : l.foldl min a ≤ a := by
  induction l generalizing a with
  | nil => simp
  | cons x xs ih =>
      calc (x :: xs).foldl min a = xs.foldl min (min a x) := rfl
        _ ≤ min a x := ih _
        _ ≤ a := min_le_left _ _

lemma foldl_min_le_mem (l : List ℚ) (a : ℚ) : ∀ x ∈ l, l.foldl min a ≤ x := by
  induction l generalizing a with
  | nil => simp
  | cons y ys ih =>
      intro x hx
      rcases List.mem_cons.mp hx with h | h
      · subst h
        calc (x :: ys).foldl min a = ys.foldl min (min a x) := rfl
          _ ≤ min a x := foldl_min_le_init _ _
          _ ≤ x := min_le_right _ _
      · exact ih (min a y) x h

lemma foldl_min_eq_init_or_mem (l : List ℚ) (a : ℚ) :
    l.foldl min a = a ∨ l.foldl min a ∈ l := by
  induction l generalizing a with
  | nil => exact Or.inl rfl
  | cons y ys ih =>
      have hfold : (y :: ys).foldl min a = ys.foldl min (min a y) := rfl
      rcases ih (min a y) with h | h
      · rcases min_choice a y with hm | hm
        · left; rw [hfold, h, hm]
        · right; rw [hfold, h, hm]; exact List.mem_cons_self _ _
      · right; rw [hfold]; exact List.mem_cons_of_mem _ h

lemma foldl_le_max_init (l : List ℚ) (a : ℚ) : a ≤ l.foldl max a := by
  induction l generalizing a with
  | nil => simp
  | cons x xs ih =>
      calc a ≤ max a x := le_max_left _ _
        _ ≤ xs.foldl max (max a x) := ih _
        _ = (x :: xs).foldl max a := rfl

lemma mem_le_foldl_max (l : List ℚ) (a : ℚ) : ∀ x ∈ l, x ≤ l.foldl max a := by
  induction l generalizing a with
  | nil => simp
  | cons y ys ih =>
      intro x hx
      rcases List.mem_cons.mp hx with h | h
      · subst h
        calc x ≤ max a x := le_max_right _ _
          _ ≤ ys.foldl max (max a x) := foldl_le_max_init _ _
          _ = (x :: ys).foldl max a := rfl
      · exact ih (max a y) x h

lemma foldl_max_eq_init_or_mem (l : List ℚ) (a : ℚ) :
    l.foldl max a = a ∨ l.foldl max a ∈ l := by
  induction l generalizing a with
  | nil => exact Or.inl rfl
  | cons y ys ih =>
      have hfold : (y :: ys).foldl max a = ys.foldl max (max a y) := rfl
      rcases ih (max a y) with h | h
      · rcases max_choice a y with hm | hm
        · left; rw [hfold, h, hm]
        · right; rw [hfold, h, hm]; exact List.mem_cons_self _ _
      · right; rw [hfold]; exact List.mem_cons_of_mem _ h

lemma seriesMin_le {values : List ℚ} (h : values ≠ []) :
    ∀ v ∈ values, seriesMin values ≤ v := by
  cases values with
  | nil => exact absurd rfl h
  | cons x xs =>
      intro v hv
      rcases List.mem_cons.mp hv with hh | hh
      · subst hh; exact foldl_min_le_init _ _
      · exact foldl_min_le_mem _ _ _ hh

lemma seriesMin_mem {values : List ℚ} (h : values ≠ []) :
    seriesMin values ∈ values := by
  cases values with
  | nil => exact absurd rfl h
  | cons x xs =>
      rcases foldl_min_eq_init_or_mem xs x with hh | hh
      · simp [seriesMin, hh]
      · exact List.mem_cons_of_mem _ (by simpa [seriesMin] using hh)

lemma le_seriesMax {values : List ℚ} (h : values ≠ []) :
    ∀ v ∈ values, v ≤ seriesMax values := by
  cases values with
  | nil => exact absurd rfl h
  | cons x xs =>
      intro v hv
      rcases List.mem_cons.mp hv with hh | hh
      · subst hh; exact foldl_le_max_init _ _
      · exact mem_le_foldl_max _ _ _ hh

lemma seriesMax_mem {values : List ℚ} (h : values ≠ []) :
    seriesMax values ∈ values := by
  cases values with
  | nil => exact absurd rfl h
  | cons x xs =>
      rcases foldl_max_eq_init_or_mem xs x with hh | hh
      · simp [seriesMax, hh]
      · exact List.mem_cons_of_mem _ (by simpa [seriesMax] using hh)

lemma seriesMin_le_seriesMax {values : List ℚ} (h : values ≠ []) :
    seriesMin values ≤ seriesMax values :=
  le_seriesMax h _ (seriesMin_mem h)

/-! Helper lemmas about the aggregator's shape. -/

lemma zip_map_self {α β : Type} (g : α → β) :
    ∀ l : List α, l.zip (l.map g) = l.map (fun a => (a, g a))
  | [] => rfl
  | x :: xs => by simp [zip_map_self g xs]

lemma aggregate_eq_map (values grid : List ℚ) (c : Comparator) :
    aggregate values grid c = grid.map (fun t => (t, specCount c values t)) := by
  cases c <;>
    simp [aggregate, cold_days_count, hot_days_count, zip_map_self, specCount,
      List.countP_eq_length_filter]

lemma specCount_lt_mono (values : List ℚ) {t₁ t₂ : ℚ} (h : t₁ ≤ t₂) :
    specCount .LESS_THAN values t₁ ≤ specCount .LESS_THAN values t₂ := by
  apply List.countP_mono_left
  intro v _ hv
  simp only [decide_eq_true_eq] at hv ⊢
  exact lt_of_lt_of_le hv h

lemma specCount_gt_anti (values : List ℚ) {t₁ t₂ : ℚ} (h : t₁ ≤ t₂) :
    specCount .GREATER_THAN values t₂ ≤ specCount .GREATER_THAN values t₁ := by
  apply List.countP_mono_left
  intro v _ hv
  simp only [decide_eq_true_eq] at hv ⊢
  exact lt_of_le_of_lt h hv

lemma length_filterMap_of_isSome {α β : Type} (f : α → Option β) (l : List α)
    (h : ∀ x ∈ l, (f x).isSome) : (l.filterMap f).length = l.length := by
  induction l with
  | nil => rfl
  | cons x xs ih =>
      obtain ⟨b, hb⟩ := Option.isSome_iff_exists.mp (h x (List.mem_cons_self _ _))
      simp [List.filterMap_cons, hb, ih (fun y hy => h y (List.mem_cons_of_mem _ hy))]

/-! Helper lemmas about the threshold grid. -/

lemma floor_le_ceil_scaled {values : List ℚ} (h : values ≠ []) :
    ⌊seriesMin values * 5⌋ ≤ ⌈seriesMax values * 5⌉ := by
  have h1 : (⌊seriesMin values * 5⌋ : ℚ) ≤ seriesMin values * 5 := Int.floor_le _
  have h2 : seriesMax values * 5 ≤ (⌈seriesMax values * 5⌉ : ℚ) := Int.le_ceil _
  have h3 : seriesMin values ≤ seriesMax values := seriesMin_le_seriesMax h
  have h4 : (⌊seriesMin values * 5⌋ : ℚ) ≤ (⌈seriesMax values * 5⌉ : ℚ) := by nlinarith
  exact_mod_cast h4

lemma temp_range_eq {values : List ℚ} (h : values ≠ []) :
    temp_range values =
      (List.range ((⌈seriesMax values * 5⌉ - ⌊seriesMin values * 5⌋).toNat + 1)).map
        (fun i : ℕ => (⌊seriesMin values * 5⌋ : ℚ) / 5 + (i : ℚ) * (1 / 5)) := by
  obtain ⟨v, vs, rfl⟩ : ∃ v vs, values = v :: vs := by
    cases values with
    | nil => exact absurd rfl h
    | cons v vs => exact ⟨v, vs, rfl⟩
  have hab : ⌊seriesMin (v :: vs) * 5⌋ ≤ ⌈seriesMax (v :: vs) * 5⌉ :=
    floor_le_ceil_scaled (by simp)
  have hcount : (((⌈seriesMax (v :: vs) * 5⌉ : ℚ) / 5 + 1 / 5 -
      (⌊seriesMin (v :: vs) * 5⌋ : ℚ) / 5) / (1 / 5))
      = ((⌈seriesMax (v :: vs) * 5⌉ + 1 - ⌊seriesMin (v :: vs) * 5⌋ : ℤ) : ℚ) := by
    push_cast
    ring
  have hceil : ⌈((⌈seriesMax (v :: vs) * 5⌉ : ℚ) / 5 + 1 / 5 -
      (⌊seriesMin (v :: vs) * 5⌋ : ℚ) / 5) / (1 / 5)⌉
      = ⌈seriesMax (v :: vs) * 5⌉ + 1 - ⌊seriesMin (v :: vs) * 5⌋ := by
    rw [hcount, Int.ceil_intCast]
  have htoNat : (⌈seriesMax (v :: vs) * 5⌉ + 1 - ⌊seriesMin (v :: vs) * 5⌋).toNat
      = (⌈seriesMax (v :: vs) * 5⌉ - ⌊seriesMin (v :: vs) * 5⌋).toNat + 1 := by omega
  simp only [temp_range, arange]
  rw [hceil, htoNat]

lemma temp_range_length {values : List ℚ} (h : values ≠ []) :
    (temp_range values).length =
      (⌈seriesMax values * 5⌉ - ⌊seriesMin values * 5⌋).toNat + 1 := by
  rw [temp_range_eq h]
  simp

lemma temp_range_ne_nil {values : List ℚ} (h : values ≠ []) :
    temp_range values ≠ [] := by
  have := temp_range_length h
  intro hnil
  rw [hnil] at this
  simp at this

lemma temp_range_getD {values : List ℚ} (h : values ≠ []) {i : Nat}
    (hi : i < (temp_range values).length) :
    (temp_range values).getD i 0 =
      (⌊seriesMin values * 5⌋ : ℚ) / 5 + (i : ℚ) * (1 / 5) := by
  rw [temp_range_eq h] at hi ⊢
  rw [List.getD_eq_getElem _ _ hi]
  simp

lemma temp_range_head {values : List ℚ} (h : values ≠ []) :
    (temp_range values).head? = some ((⌊seriesMin values * 5⌋ : ℚ) / 5) := by
  rw [temp_range_eq h, List.range_succ_eq_map]
  simp

lemma temp_range_getLast {values : List ℚ} (h : values ≠ []) :
    (temp_range values).getLast? = some ((⌈seriesMax values * 5⌉ : ℚ) / 5) := by
  have hab := floor_le_ceil_scaled h
  have hz : (0 : ℤ) ≤ ⌈seriesMax values * 5⌉ - ⌊seriesMin values * 5⌋ := by omega
  rw [temp_range_eq h, List.range_succ, List.map_append]
  simp only [List.map_cons, List.map_nil, List.getLast?_concat]
  congr 1
  have hcast : (((⌈seriesMax values * 5⌉ - ⌊seriesMin values * 5⌋).toNat : ℕ) : ℚ)
      = (⌈seriesMax values * 5⌉ : ℚ) - (⌊seriesMin values * 5⌋ : ℚ) := by
    have h1 : ((⌈seriesMax values * 5⌉ - ⌊seriesMin values * 5⌋).toNat : ℤ)
        = ⌈seriesMax values * 5⌉ - ⌊seriesMin values * 5⌋ := Int.toNat_of_nonneg hz
    exact_mod_cast congrArg (fun z : ℤ => (z : ℚ)) h1
  rw [hcast]
  ring

lemma lo_le_seriesMin (values : List ℚ) :
    (⌊seriesMin values * 5⌋ : ℚ) / 5 ≤ seriesMin values := by
  have h1 : (⌊seriesMin values * 5⌋ : ℚ) ≤ seriesMin values * 5 := Int.floor_le _
  linarith

lemma seriesMax_le_hi (values : List ℚ) :
    seriesMax values ≤ (⌈seriesMax values * 5⌉ : ℚ) / 5 := by
  have h1 : seriesMax values * 5 ≤ (⌈seriesMax values * 5⌉ : ℚ) := Int.le_ceil _
  linarith

/-! Helper lemmas for the sorted binary-search refinement. -/

lemma countP_eq_of_boundary (p : ℚ → Bool) :
    ∀ (l : List ℚ) (r : Nat), r ≤ l.length →
      (∀ i, i < r → p (l.getD i 0) = true) →
      (∀ i, r ≤ i → i < l.length → p (l.getD i 0) = false) →
      l.countP p = r := by
  intro l
  induction l with
  | nil =>
      intro r hr _ _
      have : r = 0 := by simpa using hr
      simp [this]
  | cons x xs ih =>
      intro r hr h1 h2
      cases r with
      | zero =>
          have hx : p x = false := by simpa using h2 0 (Nat.le_refl 0) (by simp)
          have hxs : xs.countP p = 0 := by
            apply ih 0 (Nat.zero_le _)
            · intro i hi; omega
            · intro i _ hi
              simpa using h2 (i + 1) (Nat.zero_le _) (by simpa using Nat.succ_lt_succ hi)
          simp [List.countP_cons, hx, hxs]
      | succ r' =>
          have hx : p x = true := by simpa using h1 0 (Nat.succ_pos _)
          rw [List.countP_cons, hx]
          have hxs : xs.countP p = r' := by
            apply ih r' (by simpa using hr)
            · intro i hi
              simpa using h1 (i + 1) (Nat.succ_lt_succ hi)
            · intro i hri hi
              simpa using h2 (i + 1) (Nat.succ_le_succ hri) (by simpa using Nat.succ_lt_succ hi)
          simp [hxs]

lemma sorted_getD_mono {l : List ℚ} (hs : List.Sorted (· ≤ ·) l) :
    ∀ i j : Nat, i ≤ j → j < l.length → l.getD i 0 ≤ l.getD j 0 := by
  intro i j hij hj
  rcases Nat.lt_or_ge i j with hlt | hge
  · have hi : i < l.length := lt_trans hlt hj
    rw [List.getD_eq_getElem _ _ hi, List.getD_eq_getElem _ _ hj]
    exact List.pairwise_iff_get.mp hs ⟨i, hi⟩ ⟨j, hj⟩ hlt
  · have : i = j := le_antisymm hij hge
    rw [this]

lemma bsearch_spec (l : List ℚ) (p : ℚ → Bool)
    (hdc : ∀ i j : Nat, i ≤ j → j < l.length → p (l.getD j 0) = true →
      p (l.getD i 0) = true) :
    ∀ (n lo hi : Nat), hi - lo ≤ n → lo ≤ hi → hi ≤ l.length →
      (∀ i, i < lo → p (l.getD i 0) = true) →
      (∀ i, hi ≤ i → i < l.length → p (l.getD i 0) = false) →
      bsearch l p lo hi ≤ l.length ∧
      (∀ i, i < bsearch l p lo hi → p (l.getD i 0) = true) ∧
      (∀ i, bsearch l p lo hi ≤ i → i < l.length → p (l.getD i 0) = false) := by
  intro n
  induction n with
  | zero =>
      intro lo hi hn hlh hhl h1 h2
      have hnlt : ¬ lo < hi := by omega
      rw [bsearch, dif_neg hnlt]
      exact ⟨by omega, h1, fun i hi1 hi2 => h2 i (by omega) hi2⟩
  | succ n ihn =>
      intro lo hi hn hlh hhl h1 h2
      by_cases hlt : lo < hi
      · rw [bsearch, dif_pos hlt]
        have hmid : (lo + hi) / 2 < hi := by omega
        by_cases hp : p (l.getD ((lo + hi) / 2) 0) = true
        · rw [if_pos hp]
          apply ihn ((lo + hi) / 2 + 1) hi (by omega) (by omega) hhl
          · intro i hi'
            exact hdc i ((lo + hi) / 2) (by omega) (by omega) hp
          · exact h2
        · rw [if_neg hp]
          apply ihn lo ((lo + hi) / 2) (by omega) (by omega) (by omega) h1
          · intro i hmi hil
            by_contra hcon
            have hpi : p (l.getD i 0) = true := by
              cases hval : p (l.getD i 0) with
              | false => exact absurd hval hcon
              | true => rfl
            exact hp (hdc ((lo + hi) / 2) i hmi hil hpi)
      · rw [bsearch, dif_neg hlt]
        exact ⟨by omega, h1, fun i hi1 hi2 => h2 i (by omega) hi2⟩

lemma bsearch_eq_countP (l : List ℚ) (p : ℚ → Bool)
    (hdc : ∀ i j : Nat, i ≤ j → j < l.length → p (l.getD j 0) = true →
      p (l.getD i 0) = true) :
    bsearch l p 0 l.length = l.countP p := by
  obtain ⟨hle, h1, h2⟩ :=
    bsearch_spec l p hdc l.length 0 l.length (by omega) (Nat.zero_le _) (Nat.le_refl _)
      (fun i hi => absurd hi (Nat.not_lt_zero i))
      (fun i hi1 hi2 => absurd (lt_of_le_of_lt hi1 hi2) (lt_irrefl _))
  exact (countP_eq_of_boundary p l _ hle h1 h2).symm

lemma sorted_count_lt (values : List ℚ) (t : ℚ) :
    bsearch (List.insertionSort (· ≤ ·) values) (fun v => decide (v < t)) 0
        (List.insertionSort (· ≤ ·) values).length
      = values.countP (fun v => decide (v < t)) := by
  have hs : List.Sorted (· ≤ ·) (List.insertionSort (· ≤ ·) values) :=
    List.sorted_insertionSort _ _
  have hperm : (List.insertionSort (· ≤ ·) values).Perm values :=
    List.perm_insertionSort _ _
  rw [bsearch_eq_countP]
  · exact hperm.countP_eq _
  · intro i j hij hj hpj
    have hmono := sorted_getD_mono hs i j hij hj
    simp only [decide_eq_true_eq] at hpj ⊢
    exact lt_of_le_of_lt hmono hpj

lemma sorted_count_le (values : List ℚ) (t : ℚ) :
    bsearch (List.insertionSort (· ≤ ·) values) (fun v => decide (v ≤ t)) 0
        (List.insertionSort (· ≤ ·) values).length
      = values.countP (fun v => decide (v ≤ t)) := by
  have hs : List.Sorted (· ≤ ·) (List.insertionSort (· ≤ ·) values) :=
    List.sorted_insertionSort _ _
  have hperm : (List.insertionSort (· ≤ ·) values).Perm values :=
    List.perm_insertionSort _ _
  rw [bsearch_eq_countP]
  · exact hperm.countP_eq _
  · intro i j hij hj hpj
    have hmono := sorted_getD_mono hs i j hij hj
    simp only [decide_eq_true_eq] at hpj ⊢
    exact le_trans hmono hpj

lemma countP_gt_eq_sub (values : List ℚ) (t : ℚ) :
    values.countP (fun v => decide (t < v))
      = values.length - values.countP (fun v => decide (v ≤ t)) := by
  induction values with
  | nil => rfl
  | cons x xs ih =>
      have hle := List.countP_le_length (fun v => decide (v ≤ t)) (l := xs)
      by_cases h : x ≤ t
      · have h2 : ¬ t < x := not_lt.mpr h
        simp [List.countP_cons, h, h2, ih]
      · have h2 : t < x := lt_of_not_le h
        simp only [List.countP_cons, List.length_cons, ih]
        have hd1 : decide (t < x) = true := by simpa using h2
        have hd2 : decide (x ≤ t) = false := by simpa using h
        rw [hd1, hd2]
        simp
        omega

lemma aggregate_getD (values grid : List ℚ) (c : Comparator) {i : Nat}
    (hi : i < grid.length) :
    (aggregate values grid c).getD i ((0 : ℚ), 0)
      = (grid.get ⟨i, hi⟩, specCount c values (grid.get ⟨i, hi⟩)) := by
  rw [aggregate_eq_map]
  have hi' : i < (grid.map (fun t => (t, specCount c values t))).length := by simpa using hi
  rw [List.getD_eq_getElem _ _ hi']
  simp

/-! The claims. -/

/-- C2: the aggregator produces one (threshold, count) entry per grid element,
in grid order, where the count at threshold t is exactly the number of values
strictly below t under LESS_THAN and strictly above t under GREATER_THAN
(equality never counts); for values [-1.0, 0.0, 2.3] the LESS_THAN count at
threshold -0.8 is 1 and at threshold 2.6 is 3. -/
theorem aggregate_counts :
    (∀ (values grid : List ℚ) (c : Comparator),
      aggregate values grid c = grid.map (fun t => (t, specCount c values t))) ∧
    aggregate [(-1 : ℚ), 0, 23/10] [-4/5, 13/5] .LESS_THAN
      = [(-4/5, 1), (13/5, 3)] := by
  constructor
  · exact aggregate_eq_map
  · norm_num [aggregate, cold_days_count, List.filter, List.zip]

/-- C10: every count in a distribution table, for either comparator, is a
natural number (hence non-negative) bounded above by the number of values. -/
theorem counts_bounded (values grid : List ℚ) (c : Comparator) :
    ∀ e ∈ aggregate values grid c, 0 ≤ e.2 ∧ e.2 ≤ values.length := by
  intro e he
  rw [aggregate_eq_map] at he
  obtain ⟨t, ht, rfl⟩ := List.mem_map.mp he
  refine ⟨Nat.zero_le _, ?_⟩
  cases c
  · exact List.countP_le_length _
  · exact List.countP_le_length _

/-- Witness for C10 at a concrete table entry. -/
theorem counts_bounded_witness :
    ((-4/5 : ℚ), 1) ∈ aggregate [(-1 : ℚ), 0, 23/10] [-4/5, 13/5] .LESS_THAN ∧
    0 ≤ (((-4/5 : ℚ), 1) : ℚ × Nat).2 ∧
    (((-4/5 : ℚ), 1) : ℚ × Nat).2 ≤ ([(-1 : ℚ), 0, 23/10] : List ℚ).length := by
  have hm : ((-4/5 : ℚ), 1) ∈ aggregate [(-1 : ℚ), 0, 23/10] [-4/5, 13/5] .LESS_THAN := by
    norm_num [aggregate, cold_days_count, List.filter, List.zip]
  exact ⟨hm, counts_bounded [(-1 : ℚ), 0, 23/10] [-4/5, 13/5] .LESS_THAN _ hm⟩

/-- C3: over a strictly increasing threshold grid, the counts of the LESS_THAN
distribution table are non-decreasing in the threshold and the counts of the
GREATER_THAN distribution table are non-increasing. -/
theorem aggregate_monotone (values grid : List ℚ)
    (hg : List.Pairwise (· < ·) grid) :
    ∀ i j : Nat, i ≤ j → j < grid.length →
      ((aggregate values grid .LESS_THAN).getD i ((0 : ℚ), 0)).2
        ≤ ((aggregate values grid .LESS_THAN).getD j ((0 : ℚ), 0)).2 ∧
      ((aggregate values grid .GREATER_THAN).getD j ((0 : ℚ), 0)).2
        ≤ ((aggregate values grid .GREATER_THAN).getD i ((0 : ℚ), 0)).2 := by
  intro i j hij hj
  have hi : i < grid.length := lt_of_le_of_lt hij hj
  have hts : grid.get ⟨i, hi⟩ ≤ grid.get ⟨j, hj⟩ := by
    rcases Nat.lt_or_ge i j with hlt | hge
    · exact le_of_lt (List.pairwise_iff_get.mp hg ⟨i, hi⟩ ⟨j, hj⟩ hlt)
    · have hh : i = j := le_antisymm hij hge
      subst hh
      exact le_refl _
  rw [aggregate_getD values grid _ hi, aggregate_getD values grid _ hj,
    aggregate_getD values grid _ hi, aggregate_getD values grid _ hj]
  exact ⟨specCount_lt_mono values hts, specCount_gt_anti values hts⟩

/-- Witness for C3 on the grid [0, 1] and value list [0]. -/
theorem aggregate_monotone_witness :
    List.Pairwise (· < ·) ([(0 : ℚ), 1]) ∧ (0 : Nat) ≤ 1 ∧ 1 < ([(0 : ℚ), 1]).length ∧
    (((aggregate [(0 : ℚ)] [(0 : ℚ), 1] .LESS_THAN).getD 0 ((0 : ℚ), 0)).2
      ≤ ((aggregate [(0 : ℚ)] [(0 : ℚ), 1] .LESS_THAN).getD 1 ((0 : ℚ), 0)).2) ∧
    (((aggregate [(0 : ℚ)] [(0 : ℚ), 1] .GREATER_THAN).getD 1 ((0 : ℚ), 0)).2
      ≤ ((aggregate [(0 : ℚ)] [(0 : ℚ), 1] .GREATER_THAN).getD 0 ((0 : ℚ), 0)).2) := by
  have hg : List.Pairwise (· < ·) ([(0 : ℚ), 1]) := by
    norm_num [List.pairwise_cons]
  have hm := aggregate_monotone [(0 : ℚ)] [(0 : ℚ), 1] hg 0 1 (by norm_num) (by norm_num)
  exact ⟨hg, by norm_num, by norm_num, hm.1, hm.2⟩

/-- C4: on empty input, cleaning yields the empty series, the grid is empty,
aggregation of no values gives an all-zero table of the grid's length and an
empty grid gives an empty table, while summarize refuses the empty series. -/
theorem empty_input_behavior :
    clean [] = [] ∧ temp_range [] = [] ∧
    (∀ (grid : List ℚ) (c : Comparator),
      aggregate [] grid c = grid.map (fun t => (t, 0))) ∧
    (∀ (values : List ℚ) (c : Comparator), aggregate values [] c = []) ∧
    summarize [] = none := by
  refine ⟨rfl, rfl, ?_, ?_, rfl⟩
  · intro grid c
    rw [aggregate_eq_map]
    cases c <;> simp [specCount]
  · intro values c
    cases c <;> rfl

/-- C5: for a non-empty value sequence the grid is non-empty and every value
lies within the closed interval from the first to the last grid threshold. -/
theorem grid_spans_range (values : List ℚ) (h : values ≠ []) :
    temp_range values ≠ [] ∧
    ∃ first last_, (temp_range values).head? = some first ∧
      (temp_range values).getLast? = some last_ ∧
      ∀ v ∈ values, first ≤ v ∧ v ≤ last_ := by
  refine ⟨temp_range_ne_nil h, _, _, temp_range_head h, temp_range_getLast h, ?_⟩
  intro v hv
  constructor
  · exact le_trans (lo_le_seriesMin values) (seriesMin_le h v hv)
  · exact le_trans (le_seriesMax h v hv) (seriesMax_le_hi values)

/-- Witness for C5 at the one-element value list [0]. -/
theorem grid_spans_range_witness :
    ([(0 : ℚ)] ≠ []) ∧
    (temp_range [(0 : ℚ)] ≠ [] ∧
      ∃ first last_, (temp_range [(0 : ℚ)]).head? = some first ∧
        (temp_range [(0 : ℚ)]).getLast? = some last_ ∧
        ∀ v ∈ [(0 : ℚ)], first ≤ v ∧ v ≤ last_) :=
  ⟨by simp, grid_spans_range [(0 : ℚ)] (by simp)⟩

/-- C7: cleaning returns exactly the subsequence of samples in which both
temperature fields are present, in the original order; from the example
samples only the first survives. -/
theorem clean_spec :
    (∀ samples : List DailySample,
      (clean samples).Sublist samples ∧
      (∀ s ∈ clean samples, s.minTemp.isSome ∧ s.maxTemp.isSome) ∧
      (∀ s : DailySample, s.minTemp.isSome → s.maxTemp.isSome →
        (clean samples).count s = samples.count s)) ∧
    clean [⟨0, some 1, some 5⟩, ⟨1, none, some 6⟩, ⟨2, some 2, none⟩]
      = [⟨0, some 1, some 5⟩] := by
  constructor
  · intro samples
    refine ⟨List.filter_sublist _, ?_, ?_⟩
    · intro s hs
      have hp := List.of_mem_filter hs
      simpa [Bool.and_eq_true] using hp
    · intro s h1 h2
      apply List.count_filter
      simp [h1, h2]
  · rfl

/-- Witness for C7: the sample with both fields present is counted the same in
the cleaned and the raw example series. -/
theorem clean_spec_witness :
    ((⟨0, some 1, some 5⟩ : DailySample).minTemp.isSome) ∧
    ((⟨0, some 1, some 5⟩ : DailySample).maxTemp.isSome) ∧
    (clean [⟨0, some 1, some 5⟩, ⟨1, none, some 6⟩, ⟨2, some 2, none⟩]).count
        ⟨0, some 1, some 5⟩
      = ([⟨0, some 1, some 5⟩, ⟨1, none, some 6⟩, ⟨2, some 2, none⟩] :
          List DailySample).count ⟨0, some 1, some 5⟩ :=
  ⟨rfl, rfl,
    (clean_spec.1 [⟨0, some 1, some 5⟩, ⟨1, none, some 6⟩, ⟨2, some 2, none⟩]).2.2
      ⟨0, some 1, some 5⟩ rfl rfl⟩

/-- C9: there is a non-empty value sequence (the single value 0.0, an exact
multiple of the 0.2 step) whose LESS_THAN count at the topmost grid threshold
is strictly below the number of values: the last threshold does not capture
the whole population under strict comparison. -/
theorem topmost_threshold_miss :
    ∃ values : List ℚ, values ≠ [] ∧
      specCount .LESS_THAN values ((temp_range values).getLastD 0)
        < values.length := by
  refine ⟨[0], by simp, ?_⟩
  have h0 : temp_range [(0 : ℚ)] = [0] := by
    rw [temp_range_eq (by simp)]
    norm_num [seriesMin, seriesMax, List.range_succ]
  rw [h0]
  norm_num [specCount, List.countP, List.countP.go, List.getLastD]

/-- C8: the aggregation computed by sorting a copy of the values and
binary-searching the cut position at each threshold agrees exactly with the
brute-force per-threshold scan of the source. -/
theorem sorted_refinement (values grid : List ℚ) (c : Comparator) :
    aggregateSorted values grid c = aggregate values grid c := by
  rw [aggregate_eq_map]
  unfold aggregateSorted
  apply List.map_congr_left
  intro t _
  cases c
  · simp only [specCount]
    exact congrArg (fun n => (t, n)) (sorted_count_lt values t)
  · simp only [specCount]
    refine congrArg (fun n => (t, n)) ?_
    rw [sorted_count_le values t, countP_gt_eq_sub values t,
      (List.perm_insertionSort (· ≤ ·) values).length_eq]

/-- C1, counterexample: under the exact arithmetic of the embedding, the grid
built from the values [-1.0, 0.0, 2.3] has 18 entries and ends at 2.4 (which
is hi = ceil(max/step)*step), not 20 entries ending one step past hi at 2.6
as the claim states. -/
theorem grid_guard_step_cex :
    (temp_range [(-1 : ℚ), 0, 23/10]).length = 18 ∧
    (temp_range [(-1 : ℚ), 0, 23/10]).getLast? = some (12/5) ∧
    ¬ ((temp_range [(-1 : ℚ), 0, 23/10]).length = 20 ∧
       (temp_range [(-1 : ℚ), 0, 23/10]).getLast? = some (13/5)) := by
  have hne : ([(-1 : ℚ), 0, 23/10] : List ℚ) ≠ [] := by simp
  have hmin : seriesMin [(-1 : ℚ), 0, 23/10] = -1 := by
    norm_num [seriesMin, min_def]
  have hmax : seriesMax [(-1 : ℚ), 0, 23/10] = 23/10 := by
    norm_num [seriesMax, max_def]
  have hfl : ⌊(-1 : ℚ) * 5⌋ = -5 := by
    rw [Int.floor_eq_iff]
    norm_num
  have hcl : ⌈(23/10 : ℚ) * 5⌉ = 12 := by
    rw [Int.ceil_eq_iff]
    norm_num
  have hlen : (temp_range [(-1 : ℚ), 0, 23/10]).length = 18 := by
    rw [temp_range_length hne, hmin, hmax, hfl, hcl]
    decide
  have hlast : (temp_range [(-1 : ℚ), 0, 23/10]).getLast? = some (12/5) := by
    rw [temp_range_getLast hne, hmax, hcl]
    norm_num
  refine ⟨hlen, hlast, ?_⟩
  rintro ⟨h20, _⟩
  rw [hlen] at h20
  exact absurd h20 (by norm_num)

/-- C1 (amended): for every non-empty value sequence, the grid is the
non-empty arithmetic sequence starting at lo = floor(min/step)*step with
constant step 0.2 whose last element is hi = ceil(max/step)*step, with
exactly (hi - lo)/step + 1 elements. -/
theorem grid_arith_seq (values : List ℚ) (h : values ≠ []) :
    temp_range values ≠ [] ∧
    (temp_range values).length
      = (⌈((⌈seriesMax values * 5⌉ : ℚ) / 5 - (⌊seriesMin values * 5⌋ : ℚ) / 5)
            / (1/5)⌉ + 1).toNat ∧
    (∀ i : Nat, i < (temp_range values).length →
      (temp_range values).getD i 0
        = (⌊seriesMin values * 5⌋ : ℚ) / 5 + (i : ℚ) * (1/5)) ∧
    (temp_range values).head? = some ((⌊seriesMin values * 5⌋ : ℚ) / 5) ∧
    (temp_range values).getLast? = some ((⌈seriesMax values * 5⌉ : ℚ) / 5) := by
  have hab := floor_le_ceil_scaled h
  have hq : ((⌈seriesMax values * 5⌉ : ℚ) / 5 - (⌊seriesMin values * 5⌋ : ℚ) / 5) / (1/5)
      = ((⌈seriesMax values * 5⌉ - ⌊seriesMin values * 5⌋ : ℤ) : ℚ) := by
    push_cast
    ring
  refine ⟨temp_range_ne_nil h, ?_, fun i hi => temp_range_getD h hi, temp_range_head h,
    temp_range_getLast h⟩
  rw [temp_range_length h, hq, Int.ceil_intCast]
  omega

/-- Witness for the amended C1 at the one-element value list [0]. -/
theorem grid_arith_seq_witness :
    ([(0 : ℚ)] ≠ []) ∧
    (temp_range [(0 : ℚ)] ≠ [] ∧
      (temp_range [(0 : ℚ)]).length
        = (⌈((⌈seriesMax [(0 : ℚ)] * 5⌉ : ℚ) / 5 - (⌊seriesMin [(0 : ℚ)] * 5⌋ : ℚ) / 5)
              / (1/5)⌉ + 1).toNat ∧
      (∀ i : Nat, i < (temp_range [(0 : ℚ)]).length →
        (temp_range [(0 : ℚ)]).getD i 0
          = (⌊seriesMin [(0 : ℚ)] * 5⌋ : ℚ) / 5 + (i : ℚ) * (1/5)) ∧
      (temp_range [(0 : ℚ)]).head? = some ((⌊seriesMin [(0 : ℚ)] * 5⌋ : ℚ) / 5) ∧
      (temp_range [(0 : ℚ)]).getLast? = some ((⌈seriesMax [(0 : ℚ)] * 5⌉ : ℚ) / 5)) :=
  ⟨by simp, grid_arith_seq [(0 : ℚ)] (by simp)⟩

/-- C6: for a non-empty cleaned series, summarize succeeds and returns the
shared count (the series length), the minimum, maximum and arithmetic mean
(sum divided by count) of each temperature series independently, and the
range maxOfMax - minOfMin; on minTemp [1,2,3] and maxTemp [5,6,7] it returns
count 3, min stats 1/3/2, max stats 5/7/6 and range 6. -/
theorem summarize_spec :
    (∀ cleaned : List DailySample, cleaned ≠ [] →
      (∀ s ∈ cleaned, s.minTemp.isSome ∧ s.maxTemp.isSome) →
      ∃ stats : SummaryStats, summarize cleaned = some stats ∧
        stats.count = cleaned.length ∧
        (stats.minOfMin ∈ cleaned.filterMap (fun s => s.minTemp) ∧
          ∀ x ∈ cleaned.filterMap (fun s => s.minTemp), stats.minOfMin ≤ x) ∧
        (stats.maxOfMin ∈ cleaned.filterMap (fun s => s.minTemp) ∧
          ∀ x ∈ cleaned.filterMap (fun s => s.minTemp), x ≤ stats.maxOfMin) ∧
        stats.meanOfMin
          = (cleaned.filterMap (fun s => s.minTemp)).sum / (cleaned.length : ℚ) ∧
        (stats.minOfMax ∈ cleaned.filterMap (fun s => s.maxTemp) ∧
          ∀ x ∈ cleaned.filterMap (fun s => s.maxTemp), stats.minOfMax ≤ x) ∧
        (stats.maxOfMax ∈ cleaned.filterMap (fun s => s.maxTemp) ∧
          ∀ x ∈ cleaned.filterMap (fun s => s.maxTemp), x ≤ stats.maxOfMax) ∧
        stats.meanOfMax
          = (cleaned.filterMap (fun s => s.maxTemp)).sum / (cleaned.length : ℚ) ∧
        stats.range = stats.maxOfMax - stats.minOfMin) ∧
    summarize [⟨0, some 1, some 5⟩, ⟨1, some 2, some 6⟩, ⟨2, some 3, some 7⟩]
      = some ⟨3, 1, 3, 2, 5, 7, 6, 6⟩ := by
  constructor
  · intro cleaned hne hall
    have hminlen : (cleaned.filterMap (fun s => s.minTemp)).length = cleaned.length :=
      length_filterMap_of_isSome _ _ (fun s hs => (hall s hs).1)
    have hmaxlen : (cleaned.filterMap (fun s => s.maxTemp)).length = cleaned.length :=
      length_filterMap_of_isSome _ _ (fun s hs => (hall s hs).2)
    have hclen : 0 < cleaned.length := List.length_pos.mpr hne
    have hminne : cleaned.filterMap (fun s => s.minTemp) ≠ [] := by
      apply List.ne_nil_of_length_pos
      omega
    have hmaxne : cleaned.filterMap (fun s => s.maxTemp) ≠ [] := by
      apply List.ne_nil_of_length_pos
      omega
    have hempty : cleaned.isEmpty = false := by
      cases cleaned with
      | nil => exact absurd rfl hne
      | cons a l => rfl
    refine ⟨⟨cleaned.length,
        seriesMin (cleaned.filterMap (fun s => s.minTemp)),
        seriesMax (cleaned.filterMap (fun s => s.minTemp)),
        (cleaned.filterMap (fun s => s.minTemp)).sum
          / ((cleaned.filterMap (fun s => s.minTemp)).length : ℚ),
        seriesMin (cleaned.filterMap (fun s => s.maxTemp)),
        seriesMax (cleaned.filterMap (fun s => s.maxTemp)),
        (cleaned.filterMap (fun s => s.maxTemp)).sum
          / ((cleaned.filterMap (fun s => s.maxTemp)).length : ℚ),
        seriesMax (cleaned.filterMap (fun s => s.maxTemp))
          - seriesMin (cleaned.filterMap (fun s => s.minTemp))⟩,
      ?_, rfl, ⟨seriesMin_mem hminne, seriesMin_le hminne⟩,
      ⟨seriesMax_mem hminne, le_seriesMax hminne⟩, ?_,
      ⟨seriesMin_mem hmaxne, seriesMin_le hmaxne⟩,
      ⟨seriesMax_mem hmaxne, le_seriesMax hmaxne⟩, ?_, rfl⟩
    · simp [summarize, hempty]
    · show _ / ((cleaned.filterMap (fun s => s.minTemp)).length : ℚ) = _
      rw [hminlen]
    · show _ / ((cleaned.filterMap (fun s => s.maxTemp)).length : ℚ) = _
      rw [hmaxlen]
  · norm_num [summarize, List.filterMap_cons, seriesMin, seriesMax, List.foldl,
      min_def, max_def, List.sum_cons]

/-- Witness for C6 at the worked example series. -/
theorem summarize_spec_witness :
    (([⟨0, some 1, some 5⟩, ⟨1, some 2, some 6⟩, ⟨2, some 3, some 7⟩] :
        List DailySample) ≠ []) ∧
    (∀ s ∈ ([⟨0, some 1, some 5⟩, ⟨1, some 2, some 6⟩, ⟨2, some 3, some 7⟩] :
        List DailySample), s.minTemp.isSome ∧ s.maxTemp.isSome) ∧
    (∃ stats : SummaryStats,
      summarize [⟨0, some 1, some 5⟩, ⟨1, some 2, some 6⟩, ⟨2, some 3, some 7⟩]
        = some stats ∧
      stats.count
        = ([⟨0, some 1, some 5⟩, ⟨1, some 2, some 6⟩, ⟨2, some 3, some 7⟩] :
            List DailySample).length ∧
      (stats.minOfMin ∈ ([⟨0, some 1, some 5⟩, ⟨1, some 2, some 6⟩,
          ⟨2, some 3, some 7⟩] : List DailySample).filterMap (fun s => s.minTemp) ∧
        ∀ x ∈ ([⟨0, some 1, some 5⟩, ⟨1, some 2, some 6⟩, ⟨2, some 3, some 7⟩] :
            List DailySample).filterMap (fun s => s.minTemp), stats.minOfMin ≤ x) ∧
      (stats.maxOfMin ∈ ([⟨0, some 1, some 5⟩, ⟨1, some 2, some 6⟩,
          ⟨2, some 3, some 7⟩] : List DailySample).filterMap (fun s => s.minTemp) ∧
        ∀ x ∈ ([⟨0, some 1, some 5⟩, ⟨1, some 2, some 6⟩, ⟨2, some 3, some 7⟩] :
            List DailySample).filterMap (fun s => s.minTemp), x ≤ stats.maxOfMin) ∧
      stats.meanOfMin
        = (([⟨0, some 1, some 5⟩, ⟨1, some 2, some 6⟩, ⟨2, some 3, some 7⟩] :
            List DailySample).filterMap (fun s => s.minTemp)).sum
          / (([⟨0, some 1, some 5⟩, ⟨1, some 2, some 6⟩, ⟨2, some 3, some 7⟩] :
            List DailySample).length : ℚ) ∧
      (stats.minOfMax ∈ ([⟨0, some 1, some 5⟩, ⟨1, some 2, some 6⟩,
          ⟨2, some 3, some 7⟩] : List DailySample).filterMap (fun s => s.maxTemp) ∧
        ∀ x ∈ ([⟨0, some 1, some 5⟩, ⟨1, some 2, some 6⟩, ⟨2, some 3, some 7⟩] :
            List DailySample).filterMap (fun s => s.maxTemp), stats.minOfMax ≤ x) ∧
      (stats.maxOfMax ∈ ([⟨0, some 1, some 5⟩, ⟨1, some 2, some 6⟩,
          ⟨2, some 3, some 7⟩] : List DailySample).filterMap (fun s => s.maxTemp) ∧
        ∀ x ∈ ([⟨0, some 1, some 5⟩, ⟨1, some 2, some 6⟩, ⟨2, some 3, some 7⟩] :
            List DailySample).filterMap (fun s => s.maxTemp), x ≤ stats.maxOfMax) ∧
      stats.meanOfMax
        = (([⟨0, some 1, some 5⟩, ⟨1, some 2, some 6⟩, ⟨2, some 3, some 7⟩] :
            List DailySample).filterMap (fun s => s.maxTemp)).sum
          / (([⟨0, some 1, some 5⟩, ⟨1, some 2, some 6⟩, ⟨2, some 3, some 7⟩] :
            List DailySample).length : ℚ) ∧
      stats.range = stats.maxOfMax - stats.minOfMin) := by
  have hall : ∀ s ∈ ([⟨0, some 1, some 5⟩, ⟨1, some 2, some 6⟩,
      ⟨2, some 3, some 7⟩] : List DailySample), s.minTemp.isSome ∧ s.maxTemp.isSome := by
    intro s hs
    simp only [List.mem_cons, List.not_mem_nil, or_false] at hs
    rcases hs with rfl | rfl | rfl
    all_goals exact ⟨rfl, rfl⟩
  exact ⟨by simp, hall,
    summarize_spec.1 [⟨0, some 1, some 5⟩, ⟨1, some 2, some 6⟩, ⟨2, some 3, some 7⟩]
      (by simp) hall⟩

end HotDays
